import Mathlib

/-!
Shallow embedding of `a-puzzle-a-day` (src/solve.py, src/stat.py) in Lean 4.

A board is a 7×7 grid of cell counts (the numpy `int` arrays of the
source).  Piece shapes, which have varying bounding boxes, are kept as
lists of rows of naturals, exactly as the Python literals.
-/

namespace APuzzleADay

/-- `BOARD_DIM_SIZE` from src/solve.py. -/
def BOARD_DIM_SIZE : Nat := 7

/-- A 7×7 numpy integer array: a function from (row, col) to cell count. -/
abbrev Board := Fin 7 → Fin 7 → Nat

/-- Build a `Board` from a list of rows (missing entries read as 0),
mirroring `np.array` applied to a 7×7 literal. -/
def boardOfRows (rows : List (List Nat)) : Board :=
  fun i j => ((rows.getD i.val []).getD j.val 0)

/-- `START_BOARD` from src/solve.py: the fixed baseline mask. -/
def START_BOARD : Board :=
  boardOfRows
    [[0, 0, 0, 0, 0, 0, 1],
     [0, 0, 0, 0, 0, 0, 1],
     [0, 0, 0, 0, 0, 0, 0],
     [0, 0, 0, 0, 0, 0, 0],
     [0, 0, 0, 0, 0, 0, 0],
     [0, 0, 0, 0, 0, 0, 0],
     [0, 0, 0, 1, 1, 1, 1]]

/-- Pointwise addition of two boards (numpy `+` on equal-shape arrays). -/
def boardAdd (a b : Board) : Board := fun i j => a i j + b i j

/-- The all-zero board (numpy scalar `0` broadcast, the start value of
Python's built-in `sum`). -/
def zeroBoard : Board := fun _ _ => 0

/-- Python `sum(boards)`: left fold of `+` starting from `0`. -/
def sumBoards (l : List Board) : Board := l.foldl boardAdd zeroBoard

/-- `np.max` over all 49 cells of a board. -/
def boardMax (b : Board) : Nat :=
  ((List.finRange 7).map fun i =>
    ((List.finRange 7).map fun j => b i j).foldr max 0).foldr max 0

/-- The sum of all 49 cells of a board. -/
def cellTotal (b : Board) : Nat :=
  ((List.finRange 7).map fun i => ((List.finRange 7).map fun j => b i j).sum).sum

/-! Orientation machinery (`iter_orientations` in src/solve.py). -/

/-- `np.fliplr`: reverse every row. -/
def fliplr (a : List (List Nat)) : List (List Nat) := a.map List.reverse

/-- `np.rot90` with `k=1`: one counterclockwise quarter turn
(transpose, then reverse the row order). -/
def rot90 (a : List (List Nat)) : List (List Nat) := a.transpose.reverse

/-- `np.rot90` with `k` quarter turns. -/
def rotk : Nat → List (List Nat) → List (List Nat)
  | 0, a => a
  | k + 1, a => rotk k (rot90 a)

/-- numpy `.shape` of a 2-d array: (number of rows, length of first row). -/
def npShape (a : List (List Nat)) : Nat × Nat := (a.length, (a.headD []).length)

/-- `iter_orientations` from src/solve.py: all 8 dihedral transforms of a
piece (identity and horizontal flip, each rotated 0–3 quarter turns),
keeping a candidate only when no previously kept orientation has both the
same shape and the same cells. -/
def iter_orientations (piece : List (List Nat)) : List (List (List Nat)) :=
  (([piece, fliplr piece].flatMap fun flipped =>
      (List.range 4).map fun k => rotk k flipped)).foldl
    (fun orientations rotation =>
      if orientations.all fun other =>
          decide (npShape rotation ≠ npShape other) || decide (rotation ≠ other)
      then orientations ++ [rotation]
      else orientations)
    []

/-! Placement machinery (`fits`, `iter_placements` in src/solve.py). -/

/-- `fits(*pieces)` from src/solve.py: the maximum cell of the sum of the
given boards is exactly 1. -/
def fits (pieces : List Board) : Bool := boardMax (sumBoards pieces) == 1

/-- The 7×7 mask holding an oriented piece anchored with its top-left
corner at `(top_row, left_col)`; all other cells are 0 (the numpy slice
assignment into `np.zeros((7, 7))`). -/
def placeAt (op : List (List Nat)) (top_row left_col : Nat) : Board :=
  fun i j =>
    if top_row ≤ i.val ∧ left_col ≤ j.val then
      (op.getD (i.val - top_row) []).getD (j.val - left_col) 0
    else 0

/-- `iter_placements` from src/solve.py: anchor the oriented piece at every
in-bounds offset and keep the mask when it fits with `START_BOARD`.
`List.range (8 - h)` has the same elements as Python's
`range(0, BOARD_DIM_SIZE - h + 1)`. -/
def iter_placements (op : List (List Nat)) : List Board :=
  (List.range (8 - op.length)).flatMap fun top_row =>
    (List.range (8 - (op.headD []).length)).filterMap fun left_col =>
      let placement := placeAt op top_row left_col
      if fits [START_BOARD, placement] then some placement else none

/-- `iter_placed_orientations` from src/solve.py. -/
def iter_placed_orientations (piece : List (List Nat)) : List Board :=
  (iter_orientations piece).flatMap iter_placements

/-! The 8 fixed piece shapes and their placement lists. -/

/-- Shape literal of `RECT` in src/solve.py. -/
def RECT_SHAPE : List (List Nat) := [[1, 1, 1], [1, 1, 1]]

/-- Shape literal of `RECT_NOTCH_CORNER` in src/solve.py. -/
def RECT_NOTCH_CORNER_SHAPE : List (List Nat) := [[1, 1, 1], [1, 1, 0]]

/-- Shape literal of `RIGHT` in src/solve.py. -/
def RIGHT_SHAPE : List (List Nat) := [[1, 1, 1], [1, 0, 0], [1, 0, 0]]

/-- Shape literal of `ESS` in src/solve.py. -/
def ESS_SHAPE : List (List Nat) := [[0, 1, 1], [0, 1, 0], [1, 1, 0]]

/-- Shape literal of `ELL` in src/solve.py. -/
def ELL_SHAPE : List (List Nat) := [[1, 1, 1, 1], [1, 0, 0, 0]]

/-- Shape literal of `SIGN_POST` in src/solve.py. -/
def SIGN_POST_SHAPE : List (List Nat) := [[0, 0, 1, 0], [1, 1, 1, 1]]

/-- Shape literal of `CRINKLE` in src/solve.py. -/
def CRINKLE_SHAPE : List (List Nat) := [[0, 1, 1, 1], [1, 1, 0, 0]]

/-- Shape literal of `CEE` in src/solve.py. -/
def CEE_SHAPE : List (List Nat) := [[1, 1], [0, 1], [1, 1]]

/-- `RECT` from src/solve.py: all placements of the 2×3 rectangle. -/
def RECT : List Board := iter_placed_orientations RECT_SHAPE

/-- `RECT_NOTCH_CORNER` from src/solve.py. -/
def RECT_NOTCH_CORNER : List Board := iter_placed_orientations RECT_NOTCH_CORNER_SHAPE

/-- `RIGHT` from src/solve.py. -/
def RIGHT : List Board := iter_placed_orientations RIGHT_SHAPE

/-- `ESS` from src/solve.py. -/
def ESS : List Board := iter_placed_orientations ESS_SHAPE

/-- `ELL` from src/solve.py. -/
def ELL : List Board := iter_placed_orientations ELL_SHAPE

/-- `SIGN_POST` from src/solve.py. -/
def SIGN_POST : List Board := iter_placed_orientations SIGN_POST_SHAPE

/-- `CRINKLE` from src/solve.py. -/
def CRINKLE : List Board := iter_placed_orientations CRINKLE_SHAPE

/-- `CEE` from src/solve.py. -/
def CEE : List Board := iter_placed_orientations CEE_SHAPE

/-- `PIECE_PLACEMENTS` from src/solve.py: the 8 candidate lists in the
fixed piece order. -/
def PIECE_PLACEMENTS : List (List Board) :=
  [RECT, RECT_NOTCH_CORNER, RIGHT, ESS, ELL, SIGN_POST, CRINKLE, CEE]

/-! The search engine (`_solve`, `solve`, `solvemp` in src/solve.py). -/

/-- `_solve` from src/solve.py: depth-first backtracking.  A branch is
abandoned as soon as the running occupancy sum has a cell above 1; when no
piece is left the accumulated assignment is yielded; otherwise the head
candidate list is expanded.  The generator is modelled as the list of its
yields, in yield order. -/
def _solve (set_pieces : List Board) (set_pieces_sum : Board) :
    List (List Board) → List (List Board)
  | [] => if 1 < boardMax set_pieces_sum then [] else [set_pieces]
  | placements :: rest =>
      if 1 < boardMax set_pieces_sum then []
      else
        placements.flatMap fun placement =>
          _solve (set_pieces ++ [placement]) (boardAdd set_pieces_sum placement) rest

/-- `solve` from src/solve.py: the single-process solver. -/
def solve : List (List Board) :=
  _solve [START_BOARD] START_BOARD PIECE_PLACEMENTS

/-- The argument triples fed to workers: `(set_pieces, set_pieces_sum,
pieces_left)`. -/
abbrev SolveArgs := List Board × Board × List (List Board)

/-- `_solvetolist` from src/solve.py: run `_solve` on one argument triple
and collect the generator into a list. -/
def _solvetolist (args : SolveArgs) : List (List Board) :=
  _solve args.1 args.2.1 args.2.2

/-- `arg_builder` inside `solvemp` in src/solve.py: enumerate the partial
assignments of the first `layers` pieces and pair each with its Python
`sum` and the remaining candidate lists. -/
def arg_builder (layers : Nat) : List SolveArgs :=
  (_solve [START_BOARD] START_BOARD (PIECE_PLACEMENTS.take layers)).map
    fun seedSolution =>
      (seedSolution, sumBoards seedSolution, PIECE_PLACEMENTS.drop layers)

/-- `solvemp` from src/solve.py, modelled on an arbitrary completion order
of the worker pool: `pool.imap_unordered` hands the per-task result lists
back in some permutation of the task list built with `layers = 2`, and
`solvemp` flattens them in arrival order. -/
def solvemp (taskOrder : List SolveArgs) : List (List Board) :=
  taskOrder.flatMap _solvetolist

/-! The month/day lookup table and decoding (src/solve.py `__main__`). -/

/-- Row literals of `MONTH_DAY_DECODER` from src/solve.py. -/
def MONTH_DAY_DECODER_ROWS : List (List String) :=
  [["Jan", "Feb", "Mar", "Apr", "May", "Jun", "???"],
   ["Jul", "Aug", "Sep", "Oct", "Nov", "Dec", "???"],
   ["001", "002", "003", "004", "005", "006", "007"],
   ["008", "009", "010", "011", "012", "013", "014"],
   ["015", "016", "017", "018", "019", "020", "021"],
   ["022", "023", "024", "025", "026", "027", "028"],
   ["029", "030", "031", "???", "???", "???", "???"]]

/-- `MONTH_DAY_DECODER` from src/solve.py as a cell-indexed table. -/
def MONTH_DAY_DECODER (i j : Fin 7) : String :=
  (MONTH_DAY_DECODER_ROWS.getD i.val []).getD j.val "???"

/-- The 12 month labels of the decoder. -/
def MONTH_LABELS : List String :=
  ["Jan", "Feb", "Mar", "Apr", "May", "Jun",
   "Jul", "Aug", "Sep", "Oct", "Nov", "Dec"]

/-- The 31 day labels of the decoder. -/
def DAY_LABELS : List String :=
  ["001", "002", "003", "004", "005", "006", "007", "008", "009", "010",
   "011", "012", "013", "014", "015", "016", "017", "018", "019", "020",
   "021", "022", "023", "024", "025", "026", "027", "028", "029", "030",
   "031"]

/-- A cell is a month cell when the lookup table decodes it to a month
abbreviation. -/
def isMonthCell (p : Fin 7 × Fin 7) : Prop :=
  MONTH_DAY_DECODER p.1 p.2 ∈ MONTH_LABELS

/-- A cell is a day cell when the lookup table decodes it to a day
number. -/
def isDayCell (p : Fin 7 × Fin 7) : Prop :=
  MONTH_DAY_DECODER p.1 p.2 ∈ DAY_LABELS

instance (p : Fin 7 × Fin 7) : Decidable (isMonthCell p) := by
  unfold isMonthCell; infer_instance

instance (p : Fin 7 × Fin 7) : Decidable (isDayCell p) := by
  unfold isDayCell; infer_instance

/-! The per-date aggregator (the read-modify-write in src/solve.py
`__main__`). -/

/-- `piece.tolist()`: a board as its 7×7 list of rows. -/
def boardToRows (b : Board) : List (List Nat) :=
  (List.finRange 7).map fun i => (List.finRange 7).map fun j => b i j

/-- The entry appended for one solution: `[piece.tolist() for piece in
sln[1:]]` — the start board at index 0 is skipped. -/
def solutionEntry (sln : List Board) : List (List (List Nat)) :=
  (sln.drop 1).map boardToRows

/-- One read-modify-write of the per-date collection: load the existing
entries (`[]` when the file does not exist), `data.append(...)` the new
solution's entry, write back. -/
def appendSolution (data : List (List (List (List Nat)))) (sln : List Board) :
    List (List (List (List Nat))) :=
  data ++ [solutionEntry sln]

/-! The statistics tool (src/stat.py). -/

/-- `VALID_MONTH_DAYS` from src/stat.py, in source order. -/
def VALID_MONTH_DAYS : List (String × Nat) :=
  [("Jan", 31), ("Feb", 29), ("Mar", 31), ("Apr", 30), ("May", 31),
   ("Jun", 30), ("Jul", 31), ("Aug", 31), ("Sep", 30), ("Oct", 31),
   ("Nov", 30), ("Dec", 31)]

/-- `left in VALID_MONTH_DAYS` plus `VALID_MONTH_DAYS[left]` as one
dictionary lookup. -/
def monthLookup (s : String) : Option Nat :=
  (VALID_MONTH_DAYS.find? fun p => p.1 == s).map Prod.snd

/-- The value of a nonempty all-digit character list. -/
def digitsVal (l : List Char) : Option Nat :=
  if l ≠ [] ∧ l.all Char.isDigit then
    some (l.foldl (fun acc c => acc * 10 + (c.toNat - 48)) 0)
  else none

/-- Python `int(s)` on a stripped token: an optional sign followed by
digits; every other string raises `ValueError`, modelled as `none`. -/
def pyInt (s : String) : Option Int :=
  match s.toList with
  | '+' :: rest => (digitsVal rest).map fun n => (n : Int)
  | '-' :: rest => (digitsVal rest).map fun n => -(n : Int)
  | l => (digitsVal l).map fun n => (n : Int)

/-- Python `str.split("-")`: cut the character list at every dash.  The
empty string yields `[[]]`, and consecutive dashes yield empty parts,
exactly as in Python. -/
def pySplitDash : List Char → List (List Char)
  | [] => [[]]
  | c :: rest =>
      if c = '-' then [] :: pySplitDash rest
      else
        match pySplitDash rest with
        | [] => [[c]]
        | p :: ps => (c :: p) :: ps

/-- `is_valid_date` from src/stat.py, applied to the file stem.  The
two-name unpacking of `stem.split("-")` raises an uncaught `ValueError`
unless the split has exactly two parts; that exception is modelled as
`none`.  A day token that `int` rejects is caught and classified `false`;
otherwise the month must be a key of `VALID_MONTH_DAYS` and the day at
most its day count. -/
def is_valid_date (stem : String) : Option Bool :=
  match (pySplitDash stem.toList).map String.mk with
  | [left, right] =>
      match pyInt right with
      | none => some false
      | some intright =>
          match monthLookup left with
          | none => some false
          | some dayCount => some (decide (intright ≤ (dayCount : Int)))
  | _ => none

/-! Basic lemmas about board folds. -/

lemma foldr_max_le_iff (l : List Nat) (c : Nat) :
    l.foldr max 0 ≤ c ↔ ∀ x ∈ l, x ≤ c := by
  induction l with
  | nil => simp
  | cons a t ih => simp [List.foldr_cons, Nat.max_le, ih]

lemma le_foldr_max_of_mem {l : List Nat} {x : Nat} (hx : x ∈ l) :
    x ≤ l.foldr max 0 := by
  induction l with
  | nil => cases hx
  | cons a t ih =>
      rcases List.mem_cons.mp hx with h | h
      · exact h ▸ le_max_left _ _
      · exact (ih h).trans (le_max_right _ _)

lemma le_boardMax (b : Board) (i j : Fin 7) : b i j ≤ boardMax b := by
  have h1 : b i j ≤ ((List.finRange 7).map fun y => b i y).foldr max 0 :=
    le_foldr_max_of_mem (List.mem_map.mpr ⟨j, List.mem_finRange j, rfl⟩)
  have h2 : ((List.finRange 7).map fun y => b i y).foldr max 0 ≤ boardMax b :=
    le_foldr_max_of_mem (List.mem_map.mpr ⟨i, List.mem_finRange i, rfl⟩)
  exact h1.trans h2

lemma boardMax_le_iff {b : Board} {c : Nat} :
    boardMax b ≤ c ↔ ∀ i j, b i j ≤ c := by
  constructor
  · intro h i j
    exact (le_boardMax b i j).trans h
  · intro h
    unfold boardMax
    rw [foldr_max_le_iff]
    intro x hx
    rcases List.mem_map.mp hx with ⟨i, _, rfl⟩
    rw [foldr_max_le_iff]
    intro y hy
    rcases List.mem_map.mp hy with ⟨j, _, rfl⟩
    exact h i j

@[simp] lemma zeroBoard_boardAdd (b : Board) : boardAdd zeroBoard b = b := by
  funext i j
  simp [boardAdd, zeroBoard]

lemma sumBoards_cons (x : Board) (l : List Board) :
    sumBoards (x :: l) = l.foldl boardAdd x := by
  simp [sumBoards]

lemma sumBoards_concat (l : List Board) (x : Board) :
    sumBoards (l ++ [x]) = boardAdd (sumBoards l) x := by
  simp [sumBoards, List.foldl_append]

lemma sumBoards_one (x : Board) : sumBoards [x] = x := by
  simp [sumBoards]

lemma foldl_boardAdd_le (ch : List Board) :
    ∀ (s : Board) (i j : Fin 7), s i j ≤ (ch.foldl boardAdd s) i j := by
  induction ch with
  | nil => intro s i j; exact le_rfl
  | cons p t ih =>
      intro s i j
      exact (Nat.le_add_right (s i j) (p i j)).trans (ih (boardAdd s p) i j)

lemma fits_pair_le {a m : Board} (h : fits [a, m] = true) (i j : Fin 7) :
    a i j + m i j ≤ 1 := by
  have hmax : boardMax (sumBoards [a, m]) = 1 := by simpa [fits] using h
  have := boardMax_le_iff.mp (le_of_eq hmax) i j
  simpa [sumBoards, boardAdd, zeroBoard] using this

/-! The placement generator: membership characterisation. -/

lemma mem_iter_placements {op : List (List Nat)} {m : Board} :
    m ∈ iter_placements op ↔
      ∃ r c : Nat, r < 8 - op.length ∧ c < 8 - (op.headD []).length ∧
        fits [START_BOARD, placeAt op r c] = true ∧ m = placeAt op r c := by
  unfold iter_placements
  simp only [List.mem_flatMap, List.mem_filterMap, List.mem_range,
    Option.ite_none_right_eq_some, Option.some.injEq]
  constructor
  · rintro ⟨r, hr, c, hc, hf, he⟩
    exact ⟨r, c, hr, hc, hf, he.symm⟩
  · rintro ⟨r, c, hr, hc, hf, he⟩
    exact ⟨r, hr, c, hc, hf, he.symm⟩

lemma mem_placed_of {S : List (List Nat)} (op : List (List Nat)) (r c : Nat)
    (hop : op ∈ iter_orientations S)
    (hr : r < 8 - op.length) (hc : c < 8 - (op.headD []).length)
    (hf : fits [START_BOARD, placeAt op r c] = true) :
    placeAt op r c ∈ iter_placed_orientations S :=
  List.mem_flatMap.mpr ⟨op, hop, mem_iter_placements.mpr ⟨r, c, hr, hc, hf, rfl⟩⟩

lemma placed_disjoint_start {S : List (List Nat)} {m : Board}
    (hm : m ∈ iter_placed_orientations S) (i j : Fin 7) :
    START_BOARD i j + m i j ≤ 1 := by
  rcases List.mem_flatMap.mp hm with ⟨op, _, hmp⟩
  rcases mem_iter_placements.mp hmp with ⟨r, c, _, _, hf, rfl⟩
  exact fits_pair_le hf i j

lemma fits_start_iff {m : Board} :
    fits [START_BOARD, m] = true ↔ ∀ i j, START_BOARD i j + m i j ≤ 1 := by
  constructor
  · exact fun h => fits_pair_le h
  · intro h
    have hsum : sumBoards [START_BOARD, m]
        = fun i j => START_BOARD i j + m i j := by
      funext i j
      simp [sumBoards, boardAdd, zeroBoard]
    have hle : boardMax (sumBoards [START_BOARD, m]) ≤ 1 := by
      rw [hsum]
      exact boardMax_le_iff.mpr h
    have hge : 1 ≤ boardMax (sumBoards [START_BOARD, m]) := by
      have h06 : (1 : Nat) ≤ sumBoards [START_BOARD, m] 0 6 := by
        rw [hsum]
        show (1 : Nat) ≤ START_BOARD 0 6 + m 0 6
        have hsb : START_BOARD 0 6 = 1 := rfl
        omega
      exact h06.trans (le_boardMax _ 0 6)
    have heq : boardMax (sumBoards [START_BOARD, m]) = 1 :=
      le_antisymm hle hge
    simpa [fits] using heq

lemma placed_ne_start {S : List (List Nat)} {m : Board}
    (hm : m ∈ iter_placed_orientations S) : m ≠ START_BOARD := by
  intro he
  have h := placed_disjoint_start hm 0 6
  rw [he] at h
  have : START_BOARD 0 6 = 1 := rfl
  omega

/-! Structure of the backtracking search. -/

lemma solve_nil_gt {pre : List Board} {s : Board} (h : 1 < boardMax s) :
    ∀ l : List (List Board), _solve pre s l = [] := by
  intro l
  cases l <;> simp [_solve, h]

lemma solve_cons {pre : List Board} {s : Board} (h : ¬ 1 < boardMax s)
    (placements : List Board) (rest : List (List Board)) :
    _solve pre s (placements :: rest)
      = placements.flatMap fun pl =>
          _solve (pre ++ [pl]) (boardAdd s pl) rest := by
  simp [_solve, h]

lemma mem_solve_struct :
    ∀ (l : List (List Board)) (pre : List Board) (s : Board) (sol : List Board),
      sol ∈ _solve pre s l →
      ∃ chosen : List Board,
        sol = pre ++ chosen ∧
        List.Forall₂ (fun c pl => c ∈ pl) chosen l ∧
        boardMax (chosen.foldl boardAdd s) ≤ 1 := by
  intro l
  induction l with
  | nil =>
      intro pre s sol hsol
      by_cases h : 1 < boardMax s
      · simp [_solve, h] at hsol
      · simp [_solve, h] at hsol
        subst hsol
        exact ⟨[], by simp, .nil, by simpa using Nat.le_of_not_lt h⟩
  | cons placements rest ih =>
      intro pre s sol hsol
      by_cases h : 1 < boardMax s
      · rw [solve_nil_gt h] at hsol
        cases hsol
      · rw [solve_cons h] at hsol
        rcases List.mem_flatMap.mp hsol with ⟨pl, hpl, hrec⟩
        rcases ih (pre ++ [pl]) (boardAdd s pl) sol hrec with
          ⟨chosen, hEq, hF, hMax⟩
        refine ⟨pl :: chosen, ?_, .cons hpl hF, ?_⟩
        · rw [hEq]; simp
        · simpa using hMax

lemma mem_solve_of_chosen {chosen : List Board} {l : List (List Board)}
    (hF : List.Forall₂ (fun c pl => c ∈ pl) chosen l) :
    ∀ (pre : List Board) (s : Board),
      boardMax (chosen.foldl boardAdd s) ≤ 1 →
      (pre ++ chosen) ∈ _solve pre s l := by
  induction hF with
  | nil =>
      intro pre s hMax
      have hns : ¬ 1 < boardMax s := Nat.not_lt.mpr (by simpa using hMax)
      simp [_solve, hns]
  | @cons c placements ch rest hc hF ih =>
      intro pre s hMax
      have hns : ¬ 1 < boardMax s := by
        apply Nat.not_lt.mpr
        apply boardMax_le_iff.mpr
        intro i j
        exact (foldl_boardAdd_le (c :: ch) s i j).trans
          (boardMax_le_iff.mp hMax i j)
      rw [solve_cons hns placements rest]
      apply List.mem_flatMap.mpr
      refine ⟨c, hc, ?_⟩
      have hsplit : pre ++ c :: ch = (pre ++ [c]) ++ ch := by simp
      rw [hsplit]
      exact ih (pre ++ [c]) (boardAdd s c) (by simpa using hMax)

lemma solve_append (l₁ l₂ : List (List Board)) :
    ∀ pre : List Board,
      _solve pre (sumBoards pre) (l₁ ++ l₂)
        = (_solve pre (sumBoards pre) l₁).flatMap fun p =>
            _solve p (sumBoards p) l₂ := by
  induction l₁ with
  | nil =>
      intro pre
      by_cases h : 1 < boardMax (sumBoards pre)
      · simp [solve_nil_gt h]
      · have hbase : _solve pre (sumBoards pre) [] = [pre] := by simp [_solve, h]
        simp [hbase]
  | cons placements rest ih =>
      intro pre
      by_cases h : 1 < boardMax (sumBoards pre)
      · simp [solve_nil_gt h]
      · rw [List.cons_append, solve_cons h, solve_cons h, List.flatMap_assoc]
        apply congrArg placements.flatMap
        funext pl
        rw [← sumBoards_concat, ih (pre ++ [pl])]

lemma solvemp_args_flatten (layers : Nat) :
    (arg_builder layers).flatMap _solvetolist = solve := by
  unfold arg_builder solve
  rw [List.flatMap_map]
  simp only [_solvetolist]
  have hsplit := solve_append (PIECE_PLACEMENTS.take layers)
    (PIECE_PLACEMENTS.drop layers) [START_BOARD]
  rw [sumBoards_one, List.take_append_drop] at hsplit
  exact hsplit.symm

/-! Cell-total accounting. -/

lemma sum_map_add {α : Type} (l : List α) (f g : α → Nat) :
    (l.map fun x => f x + g x).sum = (l.map f).sum + (l.map g).sum := by
  induction l with
  | nil => rfl
  | cons a t ih =>
      simp only [List.map_cons, List.sum_cons, ih]
      ring

lemma cellTotal_boardAdd (a b : Board) :
    cellTotal (boardAdd a b) = cellTotal a + cellTotal b := by
  unfold cellTotal
  have hrow : ∀ i ∈ List.finRange 7,
      ((List.finRange 7).map fun j => boardAdd a b i j).sum
        = ((List.finRange 7).map fun j => a i j).sum
          + ((List.finRange 7).map fun j => b i j).sum :=
    fun i _ => sum_map_add _ _ _
  rw [List.map_congr_left hrow]
  exact sum_map_add _ _ _

lemma cellTotal_foldl (ch : List Board) :
    ∀ s : Board, cellTotal (ch.foldl boardAdd s)
      = cellTotal s + (ch.map cellTotal).sum := by
  induction ch with
  | nil => intro s; simp
  | cons c t ih =>
      intro s
      simp only [List.foldl_cons, List.map_cons, List.sum_cons,
        ih (boardAdd s c), cellTotal_boardAdd]
      ring

lemma sumBoards_append (l₁ l₂ : List Board) :
    sumBoards (l₁ ++ l₂) = l₂.foldl boardAdd (sumBoards l₁) := by
  simp [sumBoards, List.foldl_append]

lemma chosen_totals :
    ∀ (ls : List (List Board)) (totals : List Nat) (chosen : List Board),
      List.Forall₂ (fun l a => ∀ m ∈ l, cellTotal m = a) ls totals →
      List.Forall₂ (fun c pl => c ∈ pl) chosen ls →
      (chosen.map cellTotal).sum = totals.sum := by
  intro ls
  induction ls with
  | nil =>
      intro totals chosen hF hMem
      cases hF
      cases hMem
      rfl
  | cons l ls ih =>
      intro totals chosen hF hMem
      cases hF with
      | cons ha hF =>
          cases hMem with
          | cons hc hMem =>
              simp only [List.map_cons, List.sum_cons]
              rw [ha _ hc, ih _ _ hF hMem]

lemma placed_total {S : List (List Nat)} {A : Nat}
    (hall : ∀ op ∈ iter_orientations S, ∀ r < 8 - op.length,
      ∀ c < 8 - (op.headD []).length, cellTotal (placeAt op r c) = A) :
    ∀ m ∈ iter_placed_orientations S, cellTotal m = A := by
  intro m hm
  rcases List.mem_flatMap.mp hm with ⟨op, hop, hmp⟩
  rcases mem_iter_placements.mp hmp with ⟨r, c, hr, hc, _, rfl⟩
  exact hall op hop r hr c hc

set_option maxRecDepth 100000 in
lemma piece_totals :
    List.Forall₂ (fun l a => ∀ m ∈ l, cellTotal m = a) PIECE_PLACEMENTS
      [6, 5, 5, 5, 5, 5, 5, 5] := by
  refine .cons (placed_total ?_) (.cons (placed_total ?_) (.cons (placed_total ?_)
    (.cons (placed_total ?_) (.cons (placed_total ?_) (.cons (placed_total ?_)
    (.cons (placed_total ?_) (.cons (placed_total ?_) .nil))))))) <;> decide

/-! Counting covered cells. -/

lemma cellTotal_eq_sum (b : Board) :
    cellTotal b = ∑ p : Fin 7 × Fin 7, b p.1 p.2 := by
  rw [Fintype.sum_prod_type, Fin.sum_univ_def]
  exact congrArg List.sum
    (List.map_congr_left fun i _ => (Fin.sum_univ_def fun j => b i j).symm)

lemma cover_counts {b : Board} (hle : ∀ i j, b i j ≤ 1) (ht : cellTotal b = 47) :
    ((Finset.univ : Finset (Fin 7 × Fin 7)).filter fun p => b p.1 p.2 = 1).card = 47 ∧
    ((Finset.univ : Finset (Fin 7 × Fin 7)).filter fun p => b p.1 p.2 = 0).card = 2 := by
  have hsum : ∑ p : Fin 7 × Fin 7, b p.1 p.2 = 47 := by
    rw [← cellTotal_eq_sum]; exact ht
  have hsplit := Finset.sum_filter_add_sum_filter_not
    (Finset.univ : Finset (Fin 7 × Fin 7)) (fun p => b p.1 p.2 = 1)
    (fun p => b p.1 p.2)
  have hzero : ∑ p ∈ (Finset.univ : Finset (Fin 7 × Fin 7)).filter
      (fun p => ¬ b p.1 p.2 = 1), b p.1 p.2 = 0 :=
    Finset.sum_eq_zero fun p hp => by
      have h1 := hle p.1 p.2
      have h2 := (Finset.mem_filter.mp hp).2
      omega
  have hone : ∑ p ∈ (Finset.univ : Finset (Fin 7 × Fin 7)).filter
      (fun p => b p.1 p.2 = 1), b p.1 p.2
      = ((Finset.univ : Finset (Fin 7 × Fin 7)).filter fun p => b p.1 p.2 = 1).card := by
    rw [Finset.sum_congr rfl fun p hp => (Finset.mem_filter.mp hp).2]
    simp
  have hcard1 :
      ((Finset.univ : Finset (Fin 7 × Fin 7)).filter fun p => b p.1 p.2 = 1).card = 47 := by
    rw [hone, hzero, hsum] at hsplit
    omega
  have hext :
      ((Finset.univ : Finset (Fin 7 × Fin 7)).filter fun p => b p.1 p.2 = 0)
        = (Finset.univ : Finset (Fin 7 × Fin 7)).filter fun p => ¬ b p.1 p.2 = 1 :=
    Finset.filter_congr fun p _ => by
      have := hle p.1 p.2
      omega
  have hcompl := Finset.filter_card_add_filter_neg_card_eq_card
    (s := (Finset.univ : Finset (Fin 7 × Fin 7))) (p := fun p => b p.1 p.2 = 1)
  have huniv : (Finset.univ : Finset (Fin 7 × Fin 7)).card = 49 := by simp
  refine ⟨hcard1, ?_⟩
  rw [hext]
  omega

/-! A concrete complete solution, found by running the embedded search by
hand, whose two uncovered cells are both day cells ("001" and "002"). -/

/-- The eight chosen placements of one complete solution. -/
def exChosen : List Board :=
  [placeAt [[1, 1, 1], [1, 1, 1]] 0 0,
   placeAt [[1, 1, 1], [1, 1, 0]] 0 3,
   placeAt [[1, 1, 1], [1, 0, 0], [1, 0, 0]] 3 0,
   placeAt [[0, 1, 1], [0, 1, 0], [1, 1, 0]] 4 0,
   placeAt [[0, 0, 0, 1], [1, 1, 1, 1]] 1 2,
   placeAt [[0, 1], [0, 1], [1, 1], [0, 1]] 2 5,
   placeAt [[0, 1], [0, 1], [1, 1], [1, 0]] 3 2,
   placeAt [[1, 1], [1, 0], [1, 1]] 3 4]

/-- A complete solution whose uncovered cells decode to "001" and "002". -/
def exSolution : List Board := START_BOARD :: exChosen

set_option maxRecDepth 100000 in
lemma exChosen_mem :
    List.Forall₂ (fun c pl => c ∈ pl) exChosen PIECE_PLACEMENTS := by
  refine .cons ?_ (.cons ?_ (.cons ?_ (.cons ?_ (.cons ?_ (.cons ?_
    (.cons ?_ (.cons ?_ .nil)))))))
  · exact mem_placed_of [[1, 1, 1], [1, 1, 1]] 0 0
      (by decide) (by decide) (by decide) (by decide)
  · exact mem_placed_of [[1, 1, 1], [1, 1, 0]] 0 3
      (by decide) (by decide) (by decide) (by decide)
  · exact mem_placed_of [[1, 1, 1], [1, 0, 0], [1, 0, 0]] 3 0
      (by decide) (by decide) (by decide) (by decide)
  · exact mem_placed_of [[0, 1, 1], [0, 1, 0], [1, 1, 0]] 4 0
      (by decide) (by decide) (by decide) (by decide)
  · exact mem_placed_of [[0, 0, 0, 1], [1, 1, 1, 1]] 1 2
      (by decide) (by decide) (by decide) (by decide)
  · exact mem_placed_of [[0, 1], [0, 1], [1, 1], [0, 1]] 2 5
      (by decide) (by decide) (by decide) (by decide)
  · exact mem_placed_of [[0, 1], [0, 1], [1, 1], [1, 0]] 3 2
      (by decide) (by decide) (by decide) (by decide)
  · exact mem_placed_of [[1, 1], [1, 0], [1, 1]] 3 4
      (by decide) (by decide) (by decide) (by decide)

set_option maxRecDepth 100000 in
lemma exSolution_mem_solve : exSolution ∈ solve := by
  have hMax : boardMax (exChosen.foldl boardAdd START_BOARD) ≤ 1 := by decide
  exact mem_solve_of_chosen exChosen_mem [START_BOARD] START_BOARD hMax

/-! Per-solution facts assembled. -/

lemma solve_sol_props {sol : List Board} (hsol : sol ∈ solve) :
    (∃ chosen : List Board, sol = START_BOARD :: chosen ∧
       List.Forall₂ (fun c pl => c ∈ pl) chosen PIECE_PLACEMENTS) ∧
    (∀ i j, sumBoards sol i j ≤ 1) ∧
    cellTotal (sumBoards sol) = 47 ∧
    (∀ i j, START_BOARD i j ≤ sumBoards sol i j) := by
  rcases mem_solve_struct PIECE_PLACEMENTS [START_BOARD] START_BOARD sol hsol with
    ⟨chosen, hEq, hF, hMax⟩
  have hsum : sumBoards sol = chosen.foldl boardAdd START_BOARD := by
    rw [hEq, sumBoards_append, sumBoards_one]
  refine ⟨⟨chosen, by simpa using hEq, hF⟩, ?_, ?_, ?_⟩
  · intro i j
    rw [hsum]
    exact boardMax_le_iff.mp hMax i j
  · rw [hsum, cellTotal_foldl]
    have h41 : (chosen.map cellTotal).sum = 41 := by
      have h := chosen_totals PIECE_PLACEMENTS [6, 5, 5, 5, 5, 5, 5, 5]
        chosen piece_totals hF
      simpa using h
    have h6 : cellTotal START_BOARD = 6 := by decide
    rw [h41, h6]
  · intro i j
    rw [hsum]
    exact foldl_boardAdd_le chosen START_BOARD i j

lemma start_free_decodes :
    ∀ p : Fin 7 × Fin 7, START_BOARD p.1 p.2 = 0 →
      isMonthCell p ∨ isDayCell p := by decide

lemma forall₂_mem_left {α β : Type} {R : α → β → Prop} :
    ∀ {l₁ : List α} {l₂ : List β}, List.Forall₂ R l₁ l₂ →
      ∀ a ∈ l₁, ∃ b ∈ l₂, R a b := by
  intro l₁ l₂ hF
  induction hF with
  | nil => intro a ha; cases ha
  | cons hr hF ih =>
      intro a ha
      rcases List.mem_cons.mp ha with rfl | ha
      · exact ⟨_, List.mem_cons_self _ _, hr⟩
      · rcases ih a ha with ⟨b, hb, hrb⟩
        exact ⟨b, List.mem_cons_of_mem _ hb, hrb⟩

lemma start_not_mem_piece_lists :
    ∀ pl ∈ PIECE_PLACEMENTS, START_BOARD ∉ pl := by
  intro pl hpl
  simp only [PIECE_PLACEMENTS, List.mem_cons, List.not_mem_nil, or_false] at hpl
  rcases hpl with rfl | rfl | rfl | rfl | rfl | rfl | rfl | rfl <;>
    exact fun hsb => placed_ne_start hsb rfl

/-- The 8 fixed piece shapes, in the fixed piece order. -/
def ALL_PIECE_SHAPES : List (List (List Nat)) :=
  [RECT_SHAPE, RECT_NOTCH_CORNER_SHAPE, RIGHT_SHAPE, ESS_SHAPE,
   ELL_SHAPE, SIGN_POST_SHAPE, CRINKLE_SHAPE, CEE_SHAPE]

/-! Claim theorems. -/

/-- C1: for the fixed piece-placement lists and baseline, the sequential
solver `solve` and the partitioned parallel solver `solvemp` (which
pre-expands the first 2 pieces' levels with `arg_builder` and runs
`_solve` per task, consuming worker results in an arbitrary completion
order) yield the same multiset of complete solutions, regardless of the
order in which the pool hands results back (hence regardless of worker
count or chunk size, which only affect that order). -/
theorem solvemp_solve_same_multiset (taskOrder : List SolveArgs)
    (hperm : taskOrder.Perm (arg_builder 2)) :
    (↑(solvemp taskOrder) : Multiset (List Board)) = ↑solve := by
  apply Multiset.coe_eq_coe.mpr
  unfold solvemp
  rw [← solvemp_args_flatten 2]
  exact hperm.flatMap_right _solvetolist

/-- Witness for C1: the identity task order. -/
theorem solvemp_solve_same_multiset_witness :
    (↑(solvemp (arg_builder 2)) : Multiset (List Board)) = ↑solve :=
  solvemp_solve_same_multiset (arg_builder 2) (List.Perm.refl _)

/-- C2 (amended): for every solution yielded by the search from
`START_BOARD` with the 8 placement lists, the cell-wise sum equals 1 on
exactly 47 of the 49 cells and 0 on the remaining 2, and each of the 2
uncovered cells decodes via the lookup table to a month or day label
(never the `???` sentinel).  (As stated, the claim's `one month cell and
one day cell` is refuted by the counterexample solution.) -/
theorem solve_covers_47_and_decodes {sol : List Board} (hsol : sol ∈ solve) :
    ((Finset.univ : Finset (Fin 7 × Fin 7)).filter
      fun p => sumBoards sol p.1 p.2 = 1).card = 47 ∧
    ((Finset.univ : Finset (Fin 7 × Fin 7)).filter
      fun p => sumBoards sol p.1 p.2 = 0).card = 2 ∧
    ∀ p : Fin 7 × Fin 7, sumBoards sol p.1 p.2 = 0 →
      isMonthCell p ∨ isDayCell p := by
  rcases solve_sol_props hsol with ⟨-, hle, ht, hsb⟩
  rcases cover_counts (fun i j => hle i j) ht with ⟨h1, h0⟩
  refine ⟨h1, h0, ?_⟩
  intro p hp
  apply start_free_decodes
  have := hsb p.1 p.2
  omega

/-- Witness for C2 (amended): the concrete solution. -/
theorem solve_covers_47_and_decodes_witness :
    ((Finset.univ : Finset (Fin 7 × Fin 7)).filter
      fun p => sumBoards exSolution p.1 p.2 = 1).card = 47 ∧
    ((Finset.univ : Finset (Fin 7 × Fin 7)).filter
      fun p => sumBoards exSolution p.1 p.2 = 0).card = 2 ∧
    ∀ p : Fin 7 × Fin 7, sumBoards exSolution p.1 p.2 = 0 →
      isMonthCell p ∨ isDayCell p :=
  solve_covers_47_and_decodes exSolution_mem_solve

set_option maxRecDepth 100000 in
/-- C2 (counterexample): `exSolution` is yielded by the search, yet none of
its uncovered cells is a month cell — both decode to day labels ("001" and
"002") — so the uncovered pair does not consist of one month cell and one
day cell. -/
theorem solve_monthless_solution :
    exSolution ∈ solve ∧
    ¬ ∃ p : Fin 7 × Fin 7, sumBoards exSolution p.1 p.2 = 0 ∧ isMonthCell p :=
  ⟨exSolution_mem_solve, by decide⟩

/-- C3: for every one of the 8 fixed piece shapes, the orientation list
has no two structurally equal members (equality of row-lists is exactly
equality of bounding box and cell pattern) and its length divides 8. -/
theorem orientations_nodup_length_dvd_eight
    {piece : List (List Nat)} (hp : piece ∈ ALL_PIECE_SHAPES) :
    (iter_orientations piece).Nodup ∧ (iter_orientations piece).length ∣ 8 := by
  fin_cases hp <;> exact ⟨by decide, by decide⟩

/-- Witness for C3: the RECT shape. -/
theorem orientations_nodup_length_dvd_eight_witness :
    (iter_orientations RECT_SHAPE).Nodup ∧
    (iter_orientations RECT_SHAPE).length ∣ 8 :=
  orientations_nodup_length_dvd_eight (by decide)

/-- C4 (counterexample): the orientation list of `RECT` has length 2, not
1 — the 2×3 rectangle is not fixed by a quarter turn, which swaps its
bounding box to 3×2. -/
theorem rect_orientations_not_one :
    (iter_orientations RECT_SHAPE).length = 2 ∧
    (iter_orientations RECT_SHAPE).length ≠ 1 :=
  ⟨by decide, by decide⟩

/-- C4 (amended): the orientation enumerator yields exactly 2 distinct
orientations for RECT, 8 for ELL and 4 for CEE. -/
theorem orientation_counts_rect_ell_cee :
    (iter_orientations RECT_SHAPE).length = 2 ∧
    (iter_orientations ELL_SHAPE).length = 8 ∧
    (iter_orientations CEE_SHAPE).length = 4 :=
  ⟨by decide, by decide, by decide⟩

/-- C5: for an orientation with bounding box `H × W` (`H, W ≤ 7`), the
placement generator considers every anchor `(r, c)` with `r ≤ 7 − H` and
`c ≤ 7 − W` and yields the anchored mask exactly when its cell-wise sum
with the baseline has no cell above 1; consequently every generated
placement has empty cell-wise intersection with the baseline. -/
theorem iter_placements_characterisation (op : List (List Nat)) (H W : Nat)
    (hH : op.length = H) (hW : (op.headD []).length = W)
    (hH7 : H ≤ 7) (hW7 : W ≤ 7) :
    (∀ m : Board, m ∈ iter_placements op ↔
      ∃ r c : Nat, r ≤ 7 - H ∧ c ≤ 7 - W ∧ m = placeAt op r c ∧
        ∀ i j : Fin 7, START_BOARD i j + m i j ≤ 1) ∧
    (∀ m ∈ iter_placements op, ∀ i j : Fin 7,
        min (START_BOARD i j) (m i j) = 0) := by
  subst hH
  subst hW
  constructor
  · intro m
    rw [mem_iter_placements]
    constructor
    · rintro ⟨r, c, hr, hc, hf, rfl⟩
      exact ⟨r, c, by omega, by omega, rfl, fits_start_iff.mp hf⟩
    · rintro ⟨r, c, hr, hc, rfl, hf⟩
      exact ⟨r, c, by omega, by omega, fits_start_iff.mpr hf, rfl⟩
  · intro m hm i j
    rcases mem_iter_placements.mp hm with ⟨r, c, _, _, hf, rfl⟩
    have := fits_pair_le hf i j
    omega

/-- Witness for C5: the 2×3 RECT orientation. -/
theorem iter_placements_characterisation_witness :
    (∀ m : Board, m ∈ iter_placements RECT_SHAPE ↔
      ∃ r c : Nat, r ≤ 7 - 2 ∧ c ≤ 7 - 3 ∧ m = placeAt RECT_SHAPE r c ∧
        ∀ i j : Fin 7, START_BOARD i j + m i j ≤ 1) ∧
    (∀ m ∈ iter_placements RECT_SHAPE, ∀ i j : Fin 7,
        min (START_BOARD i j) (m i j) = 0) :=
  iter_placements_characterisation RECT_SHAPE 2 3 rfl rfl
    (by decide) (by decide)

/-- C6 (counterexample): `START_BOARD` has exactly 6 blocked cells, not
11. -/
theorem start_board_blocked_not_eleven :
    ((Finset.univ : Finset (Fin 7 × Fin 7)).filter
      fun p => START_BOARD p.1 p.2 = 1).card = 6 ∧
    ((Finset.univ : Finset (Fin 7 × Fin 7)).filter
      fun p => START_BOARD p.1 p.2 = 1).card ≠ 11 :=
  ⟨by decide, by decide⟩

/-- C6 (amended): `START_BOARD` has exactly 6 cells marked blocked
(value 1) and the other 43 cells free (value 0). -/
theorem start_board_blocked_six :
    ((Finset.univ : Finset (Fin 7 × Fin 7)).filter
      fun p => START_BOARD p.1 p.2 = 1).card = 6 ∧
    ((Finset.univ : Finset (Fin 7 × Fin 7)).filter
      fun p => START_BOARD p.1 p.2 = 0).card = 43 :=
  ⟨by decide, by decide⟩

/-- C7: persisting a solution for a date whose collection already holds
`n` entries leaves the first `n` entries unchanged, in order, and appends
exactly the one new entry, so the length grows by one. -/
theorem aggregator_append_preserves (data : List (List (List (List Nat))))
    (sln : List Board) :
    (appendSolution data sln).length = data.length + 1 ∧
    (appendSolution data sln).take data.length = data ∧
    (appendSolution data sln).drop data.length = [solutionEntry sln] := by
  refine ⟨by simp [appendSolution], ?_, ?_⟩
  · simp [appendSolution, List.take_left]
  · simp [appendSolution, List.drop_left]

/-- Witness for C7: a singleton collection. -/
theorem aggregator_append_preserves_witness :
    (appendSolution [[]] exSolution).length = 2 ∧
    (appendSolution [[]] exSolution).take 1 = [[]] ∧
    (appendSolution [[]] exSolution).drop 1 = [solutionEntry exSolution] :=
  aggregator_append_preserves [[]] exSolution

/-- C8: every solution yielded by the search engine consists of the
baseline followed by exactly one placement per piece, each taken from that
piece's own candidate list, in the fixed piece order. -/
theorem solve_one_placement_per_piece {sol : List Board} (hsol : sol ∈ solve) :
    ∃ chosen : List Board, sol = START_BOARD :: chosen ∧
      List.Forall₂ (fun c pl => c ∈ pl) chosen PIECE_PLACEMENTS ∧
      chosen.length = 8 := by
  rcases (solve_sol_props hsol).1 with ⟨chosen, hEq, hF⟩
  refine ⟨chosen, hEq, hF, ?_⟩
  rw [hF.length_eq]
  rfl

/-- Witness for C8: the concrete solution. -/
theorem solve_one_placement_per_piece_witness :
    ∃ chosen : List Board, exSolution = START_BOARD :: chosen ∧
      List.Forall₂ (fun c pl => c ∈ pl) chosen PIECE_PLACEMENTS ∧
      chosen.length = 8 :=
  solve_one_placement_per_piece exSolution_mem_solve

/-- C9 (counterexample): a file stem with no dash makes the two-name
unpacking in `is_valid_date` raise an uncaught `ValueError` (modelled as
`none`) instead of classifying the date as invalid. -/
theorem is_valid_date_dashless_raises :
    is_valid_date "Jan" = none ∧ ∀ b : Bool, is_valid_date "Jan" ≠ some b :=
  ⟨by decide, by decide⟩

/-- C9 (amended): for every stem that splits on `-` into exactly two
tokens, `is_valid_date` returns a classification (never raises), and it
returns `true` exactly when the month token is one of the 12 month
abbreviations of `VALID_MONTH_DAYS` and the day token parses as an integer
at most that month's day count (February's count being 29). -/
theorem is_valid_date_two_token_spec (stem l r : String)
    (h : (pySplitDash stem.toList).map String.mk = [l, r]) :
    (is_valid_date stem).isSome ∧
    (is_valid_date stem = some true ↔
      ∃ dayCount v, monthLookup l = some dayCount ∧ pyInt r = some v ∧
        v ≤ (dayCount : Int)) := by
  have hv : is_valid_date stem =
      (match pyInt r with
       | none => some false
       | some intright =>
           match monthLookup l with
           | none => some false
           | some dayCount => some (decide (intright ≤ (dayCount : Int)))) := by
    unfold is_valid_date
    rw [h]
  rw [hv]
  cases hp : pyInt r with
  | none => simp
  | some v =>
      cases hm : monthLookup l with
      | none => simp [hm]
      | some dc => simp [hm]

/-- Witness for C9 (amended): the stem "Feb-030", classified invalid
because 30 exceeds February's 29. -/
theorem is_valid_date_two_token_spec_witness :
    (is_valid_date "Feb-030").isSome ∧
    (is_valid_date "Feb-030" = some true ↔
      ∃ dayCount v, monthLookup "Feb" = some dayCount ∧
        pyInt "030" = some v ∧ v ≤ (dayCount : Int)) :=
  is_valid_date_two_token_spec "Feb-030" "Feb" "030" (by decide)

/-- C10: every solution yielded by `solve`, or by `solvemp` under any
completion order of the task pool, is a list of exactly 9 boards whose
head is `START_BOARD`, and the 8 boards after the head never include the
baseline — so the persisted entry built from `sln[1:]` consists of exactly
the 8 piece placements. -/
theorem solve_solution_shape (taskOrder : List SolveArgs)
    (hperm : taskOrder.Perm (arg_builder 2)) (sol : List Board)
    (hsol : sol ∈ solve ∨ sol ∈ solvemp taskOrder) :
    sol.length = 9 ∧ sol.head? = some START_BOARD ∧
    (sol.drop 1).length = 8 ∧ START_BOARD ∉ sol.drop 1 := by
  have hs : sol ∈ solve := by
    rcases hsol with h | h
    · exact h
    · have h2 : sol ∈ (arg_builder 2).flatMap _solvetolist :=
        (hperm.flatMap_right _solvetolist).mem_iff.mp h
      rw [solvemp_args_flatten 2] at h2
      exact h2
  rcases (solve_sol_props hs).1 with ⟨chosen, hEq, hF⟩
  have hlen : chosen.length = 8 := by rw [hF.length_eq]; rfl
  subst hEq
  refine ⟨by simp [hlen], rfl, by simp [hlen], ?_⟩
  show START_BOARD ∉ chosen
  intro hmem
  rcases forall₂_mem_left hF START_BOARD hmem with ⟨pl, hpl, hSBpl⟩
  exact start_not_mem_piece_lists pl hpl hSBpl

/-- Witness for C10: the identity task order and the concrete solution. -/
theorem solve_solution_shape_witness :
    exSolution.length = 9 ∧ exSolution.head? = some START_BOARD ∧
    (exSolution.drop 1).length = 8 ∧ START_BOARD ∉ exSolution.drop 1 :=
  solve_solution_shape (arg_builder 2) (List.Perm.refl _) exSolution
    (Or.inl exSolution_mem_solve)

end APuzzleADay
